import Mathlib

/-!
Shallow embedding of the webext-storage sync engine
(components/webext-storage/src/sync/{incoming,outgoing}.rs).

The three SQL tables are modelled as association lists:
  * `moz_extension_data`          — local records, keyed by `ext_id`;
  * `moz_extension_data_mirror`   — mirror records, keyed by `guid`;
  * `temp.moz_extension_data_staging` — staging records, keyed by `guid`.
A SQL `UPDATE ... WHERE key = k` maps the matching rows, `DELETE` filters
them out, and `INSERT OR REPLACE` / `REPLACE INTO` replaces the row with the
given key (`updateWhere`, `deleteKey`, `alistSet` below).

Rust transactions are modelled by returning the pre-state together with the
error whenever the function returns before `tx.commit()`: an uncommitted
transaction is rolled back, so none of its writes become visible.

The cooperative-cancellation signal (`Interruptee`) is modelled as a
predicate on poll indices: `err_if_interrupted` at the n-th poll of a call
errors iff `sig n = true`.

External collaborators (serde_json's parser and serialiser, the three-way
`merge` function from sync/mod.rs) are taken as parameters: the engine's code
only ever observes their results.
-/

namespace WebextStorage

/-- JSON values, as in serde_json's `Value`; `obj` holds the map inside
`Value::Object`, which is what the engine calls a `JsonMap`. -/
inductive JsonValue : Type where
  | null : JsonValue
  | bool (b : Bool) : JsonValue
  | num (n : Int) : JsonValue
  | str (s : String) : JsonValue
  | arr (elems : List JsonValue) : JsonValue
  | obj (fields : List (String × JsonValue)) : JsonValue

/-- The map inside a `JsonValue.obj` (serde_json's `Map<String, Value>`). -/
abbrev JsonMap : Type := List (String × JsonValue)

/-- serde_json's `Value::as_str`: `Some` exactly when the value is a JSON
string, `None` for every other variant (in particular for any object). -/
def JsonValue.as_str : JsonValue → Option String
  | .str s => some s
  | _ => none

/-- The cancellation signal: `sig n` tells whether the signal is raised at the
n-th `err_if_interrupted` poll performed by the call. -/
def Signal : Type := Nat → Bool

/-- A signal that is never raised (`NeverInterrupts`). -/
def neverSignal : Signal := fun _ => false

/-- The error kinds the embedded operations can produce. Storage-engine
failures cannot arise in the embedding (list operations are total), so only
the interrupted/cancelled kind remains. -/
inductive Err : Type where
  | interrupted : Err
deriving DecidableEq

/-- Modelled from the spec: `SyncStatus` is declared in sync/mod.rs, which is
not among the sources; spec section 3 gives `sync_status ∈ {New, Normal}`. -/
inductive SyncStatus : Type where
  | New : SyncStatus
  | Normal : SyncStatus
deriving DecidableEq

/-- A row of `moz_extension_data` (the local records table), minus its
`ext_id` key: `data`, `sync_status`, `sync_change_counter`. -/
structure LocalRecord where
  data : Option String
  sync_status : SyncStatus
  sync_change_counter : Int
deriving DecidableEq

/-- A row of `moz_extension_data_mirror`, minus its `guid` key. -/
structure MirrorRecord where
  ext_id : String
  data : Option String
  server_modified : Int
deriving DecidableEq

/-- A row of `temp.moz_extension_data_staging`, minus its `guid` key. -/
structure StagingRecord where
  ext_id : String
  data : Option String
  server_modified : Int
deriving DecidableEq

/-- The wire record (sync/mod.rs `ServerPayload`, fields as used by
incoming.rs/outgoing.rs and spec section 3). `last_modified` is the
`ServerTimestamp` in integer milliseconds (`as_millis`). -/
structure ServerPayload where
  guid : String
  ext_id : String
  data : Option String
  deleted : Bool
  last_modified : Int
deriving DecidableEq

/-- The store: the three tables the sync engine touches. -/
structure DbState where
  locals : List (String × LocalRecord)
  mirror : List (String × MirrorRecord)
  staging : List (String × StagingRecord)
deriving DecidableEq

/-- First row with the given key, as a SQL lookup/join on a keyed table. -/
def alistGet (k : String) : List (String × A) → Option A
  | [] => none
  | p :: rest => if p.1 = k then some p.2 else alistGet k rest

/-- `INSERT OR REPLACE` / `REPLACE INTO` keyed by `k`: replace the row with
that key, or append a new one. -/
def alistSet (k : String) (v : A) : List (String × A) → List (String × A)
  | [] => [(k, v)]
  | p :: rest => if p.1 = k then (k, v) :: rest else p :: alistSet k v rest

/-- `DELETE FROM ... WHERE key = k`. -/
def deleteKey (k : String) : List (String × A) → List (String × A)
  | [] => []
  | p :: rest => if p.1 = k then deleteKey k rest else p :: deleteKey k rest

/-- `UPDATE ... SET ... WHERE key = k`: apply `f` to every row keyed `k`. -/
def updateWhere (k : String) (f : A → A) : List (String × A) → List (String × A)
  | [] => []
  | p :: rest =>
    if p.1 = k then (p.1, f p.2) :: updateWhere k f rest
    else p :: updateWhere k f rest

/-- The loop of `stage_incoming`: per payload, poll the signal, then
`INSERT OR REPLACE INTO temp.moz_extension_data_staging` keyed by guid. -/
def stage_incoming_loop (sig : Signal) :
    List (String × StagingRecord) → List ServerPayload → Nat →
    Except Err (List (String × StagingRecord))
  | st, [], _ => .ok st
  | st, bso :: rest, i =>
    if sig i then .error .interrupted
    else
      stage_incoming_loop sig
        (alistSet bso.guid ⟨bso.ext_id, bso.data, bso.last_modified⟩ st) rest (i + 1)

/-- incoming.rs `stage_incoming`: one transaction inserting the batch into
staging, polling the signal before each item; an error before `tx.commit()`
rolls the transaction back, leaving the store as it was. -/
def stage_incoming (s : DbState) (incoming_bsos : List ServerPayload) (sig : Signal) :
    DbState × Option Err :=
  match stage_incoming_loop sig s.staging incoming_bsos 0 with
  | .ok st => ({ s with staging := st }, none)
  | .error e => (s, some e)

/-- incoming.rs `IncomingItem`: the identity pair of a staged row. -/
structure IncomingItem where
  guid : String
  ext_id : String
deriving DecidableEq

/-- incoming.rs `IncomingState`: which of staging/mirror/local exist for an
item, with each side's JSON payload (`loc` stands for the source's `local`
field, a Lean keyword). -/
inductive IncomingState : Type where
  | IncomingOnly (incoming : Option JsonMap) : IncomingState
  | LocalOnly (incoming : Option JsonMap) (loc : Option JsonMap) : IncomingState
  | NotLocal (incoming : Option JsonMap) (mirror : Option JsonMap) : IncomingState
  | Everywhere (incoming : Option JsonMap) (mirror : Option JsonMap)
      (loc : Option JsonMap) : IncomingState

/-- incoming.rs `IncomingAction`. -/
inductive IncomingAction : Type where
  | DeleteLocally : IncomingAction
  | DeleteRemotely : IncomingAction
  | TakeRemote (data : JsonMap) : IncomingAction
  | Merge (data : JsonMap) : IncomingAction
  | Same : IncomingAction

/-- incoming.rs `json_map_from_row`: read an optional text column and keep it
only when it parses (via serde_json, the `parse` parameter) to a JSON object;
invalid JSON or any other JSON type is logged and treated as absent, never an
error. -/
def json_map_from_row (parse : String → Option JsonValue) :
    Option String → Option JsonMap
  | none => none
  | some s =>
    match parse s with
    | some (JsonValue.obj m) => some m
    | _ => none

/-- The `from_row` closure of incoming.rs `get_incoming`, over the columns of
one joined row: staged guid/ext_id/data, and the mirror/local rows the two
left joins matched (`m_exists`/`l_exists`). -/
def incoming_from_row (parse : String → Option JsonValue) (guid ext_id : String)
    (s_data : Option String) (m : Option MirrorRecord) (l : Option LocalRecord) :
    IncomingItem × IncomingState :=
  let incoming := json_map_from_row parse s_data
  let state :=
    match l, m with
    | none, none => IncomingState.IncomingOnly incoming
    | some lr, none => IncomingState.LocalOnly incoming (json_map_from_row parse lr.data)
    | none, some mr => IncomingState.NotLocal incoming (json_map_from_row parse mr.data)
    | some lr, some mr =>
      IncomingState.Everywhere incoming (json_map_from_row parse mr.data)
        (json_map_from_row parse lr.data)
  (⟨guid, ext_id⟩, state)

/-- incoming.rs `get_incoming`: per staging row, left-join the mirror by guid
and the local table by ext_id, and classify. A read-only query: it returns
`Ok` of the classification in the source; errors can only come from the
storage engine, which the embedding does not model. -/
def get_incoming (parse : String → Option JsonValue) (s : DbState) :
    List (IncomingItem × IncomingState) :=
  s.staging.map fun p =>
    incoming_from_row parse p.1 p.2.ext_id p.2.data
      (alistGet p.1 s.mirror) (alistGet p.2.ext_id s.locals)

/-- incoming.rs `plan_incoming`, parameterised by the external `merge`
collaborator. The two middle `LocalOnly` arms are transcribed exactly as the
source's patterns match them: `(some _, none) => DeleteLocally` and
`(none, some d) => TakeRemote d`. -/
def plan_incoming (merge : JsonMap → JsonMap → Option JsonMap → IncomingAction) :
    IncomingState → IncomingAction
  | .Everywhere incoming mirror loc =>
    match incoming, loc, mirror with
    | some i, some l, some m => merge i l (some m)
    | some i, some l, none => merge i l none
    | some i, none, _ => .TakeRemote i
    | none, _, _ => .DeleteLocally
  | .LocalOnly incoming loc =>
    match incoming, loc with
    | some i, some l => merge i l none
    | some _, none => .DeleteLocally
    | none, some d => .TakeRemote d
    | none, none => .Same
  | .NotLocal incoming _ =>
    match incoming with
    | some d => .TakeRemote d
    | none => .Same
  | .IncomingOnly incoming =>
    match incoming with
    | some d => .TakeRemote d
    | none => .DeleteLocally

/-- One arm of the loop body of incoming.rs `apply_actions`, on the local
table. `render` is serde_json's `Value::to_string` (used by the `Merge` arm);
the `TakeRemote` arm binds `Value::Object(data).as_str()`, which is `none`
for every object. -/
def apply_action (render : JsonValue → String) (locs : List (String × LocalRecord))
    (ext_id : String) : IncomingAction → List (String × LocalRecord)
  | .DeleteLocally => deleteKey ext_id locs
  | .DeleteRemotely =>
    updateWhere ext_id (fun r => { r with data := none, sync_status := SyncStatus.New }) locs
  | .TakeRemote d =>
    updateWhere ext_id
      (fun r =>
        { r with
          data := JsonValue.as_str (JsonValue.obj d)
          sync_status := SyncStatus.Normal
          sync_change_counter := 0 }) locs
  | .Merge d =>
    updateWhere ext_id
      (fun r =>
        { r with
          data := some (render (JsonValue.obj d))
          sync_status := SyncStatus.Normal
          sync_change_counter := r.sync_change_counter + 1 }) locs
  | .Same => locs

/-- The loop of `apply_actions`: poll the signal before each (item, action),
then execute the action's SQL against the local table. -/
def apply_actions_loop (render : JsonValue → String) (sig : Signal) :
    List (String × LocalRecord) → List (IncomingItem × IncomingAction) → Nat →
    Except Err (List (String × LocalRecord))
  | locs, [], _ => .ok locs
  | locs, pa :: rest, i =>
    if sig i then .error .interrupted
    else apply_actions_loop render sig (apply_action render locs pa.1.ext_id pa.2) rest (i + 1)

/-- incoming.rs `apply_actions`: one transaction over the planned actions;
an error before `tx.commit()` rolls everything back. -/
def apply_actions (render : JsonValue → String) (s : DbState)
    (actions : List (IncomingItem × IncomingAction)) (sig : Signal) :
    DbState × Option Err :=
  match apply_actions_loop render sig s.locals actions 0 with
  | .ok locs => ({ s with locals := locs }, none)
  | .error e => (s, some e)

/-- outgoing.rs `OutgoingStateHolder`: what is kept per collected item so the
local DB can be updated after the POST. -/
structure OutgoingStateHolder where
  ext_id : String
  change_counter : Int
deriving DecidableEq

/-- outgoing.rs `OutgoingInfo`. -/
structure OutgoingInfo where
  state : OutgoingStateHolder
  payload : ServerPayload
deriving DecidableEq

/-- outgoing.rs `OutgoingInfo::from_row`, over the columns of one joined row:
the mirror's guid when the join matched (else a fresh random guid, the
`guid_if_missing` parameter), the local `ext_id`, `data` and
`sync_change_counter`. Absent data maps to a `deleted` payload; the captured
counter is stored in the state holder. -/
def OutgoingInfo.from_row (guid_if_missing : String) (ext_id : String)
    (data : Option String) (counter : Int) (mguid : Option String) : OutgoingInfo :=
  let guid := mguid.getD guid_if_missing
  let dd := if data.isSome then (data, false) else ((none : Option String), true)
  { state := { ext_id := ext_id, change_counter := counter }
    payload :=
      { guid := guid, ext_id := ext_id, data := dd.1, deleted := dd.2
        last_modified := 0 } }

/-- The mirror side of get_outgoing's `LEFT JOIN moz_extension_data_mirror m
ON m.ext_id = l.ext_id`: the guid of the first mirror row with this ext_id. -/
def mirror_guid_for : List (String × MirrorRecord) → String → Option String
  | [], _ => none
  | p :: rest, e => if p.2.ext_id = e then some p.1 else mirror_guid_for rest e

/-- The row set of get_outgoing's query: local rows with
`sync_change_counter > 0`, each turned into an `OutgoingInfo`; `fresh i`
supplies the i-th `SyncGuid::random()` for rows with no mirror guid. -/
def get_outgoing_rows (fresh : Nat → String) :
    List (String × LocalRecord) → List (String × MirrorRecord) → Nat → List OutgoingInfo
  | [], _, _ => []
  | p :: rest, mirror, i =>
    if 0 < p.2.sync_change_counter then
      OutgoingInfo.from_row (fresh i) p.1 p.2.data p.2.sync_change_counter
          (mirror_guid_for mirror p.1)
        :: get_outgoing_rows fresh rest mirror (i + 1)
    else get_outgoing_rows fresh rest mirror i

/-- outgoing.rs `get_outgoing`: a read-only query. Its `_signal` parameter is
received but never polled, so the result is `Ok` for every signal. -/
def get_outgoing (fresh : Nat → String) (s : DbState) (_signal : Signal) :
    Except Err (List OutgoingInfo) :=
  Except.ok (get_outgoing_rows fresh s.locals s.mirror 0)

/-- The per-item UPDATE of record_uploaded's first loop: subtract the captured
counter from the live one (no clamping in the SQL) and set the status. -/
def uploadStep (it : OutgoingInfo) (r : LocalRecord) : LocalRecord :=
  { r with
    sync_change_counter := r.sync_change_counter - it.state.change_counter
    sync_status := SyncStatus.Normal }

/-- First loop of outgoing.rs `record_uploaded`: per item, poll the signal,
then run the counter/status UPDATE keyed by the item's ext_id. Returns the
next poll index along with the updated table. -/
def record_uploaded_loop1 (sig : Signal) :
    List (String × LocalRecord) → List OutgoingInfo → Nat →
    Except Err (List (String × LocalRecord) × Nat)
  | locs, [], i => .ok (locs, i)
  | locs, it :: rest, i =>
    if sig i then .error .interrupted
    else record_uploaded_loop1 sig (updateWhere it.state.ext_id (uploadStep it) locs) rest (i + 1)

/-- record_uploaded's `execute_batch`: `REPLACE INTO` the mirror every staging
row (keyed by guid — the staging/mirror key per the spec, the schema SQL file
not being among the sources); the subsequent `DELETE FROM staging` is the
`staging := []` at the caller. -/
def fold_staging_into_mirror (mirror : List (String × MirrorRecord)) :
    List (String × StagingRecord) → List (String × MirrorRecord)
  | [] => mirror
  | p :: rest =>
    fold_staging_into_mirror (alistSet p.1 ⟨p.2.ext_id, p.2.data, p.2.server_modified⟩ mirror) rest

/-- Second loop of `record_uploaded`: per item, poll the signal, then
`REPLACE INTO` the mirror the item's own payload (guid, ext_id,
`payload.last_modified`, data). -/
def record_uploaded_loop2 (sig : Signal) :
    List (String × MirrorRecord) → List OutgoingInfo → Nat →
    Except Err (List (String × MirrorRecord))
  | m, [], _ => .ok m
  | m, it :: rest, i =>
    if sig i then .error .interrupted
    else
      record_uploaded_loop2 sig
        (alistSet it.payload.guid ⟨it.state.ext_id, it.payload.data, it.payload.last_modified⟩ m)
        rest (i + 1)

/-- outgoing.rs `record_uploaded`: one transaction running the counter
updates, the staging-to-mirror fold plus staging clear, and the uploaded
payloads' mirror writes; an error before `tx.commit()` rolls everything
back. -/
def record_uploaded (s : DbState) (items : List OutgoingInfo) (sig : Signal) :
    DbState × Option Err :=
  match record_uploaded_loop1 sig s.locals items 0 with
  | .error e => (s, some e)
  | .ok (locs, i) =>
    match record_uploaded_loop2 sig (fold_staging_into_mirror s.mirror s.staging) items i with
    | .error e => (s, some e)
    | .ok m2 => ({ locals := locs, mirror := m2, staging := [] }, none)

/-- The composite effect of record_uploaded's first loop on one local record:
the `uploadStep` of every item whose `ext_id` matches, in list order. -/
def itemsFold : List OutgoingInfo → String → LocalRecord → LocalRecord
  | [], _, r => r
  | it :: rest, e, r =>
    if it.state.ext_id = e then itemsFold rest e (uploadStep it r)
    else itemsFold rest e r

/-- The uploaded items whose captured state is keyed by `e`. -/
def matchingItems (e : String) : List OutgoingInfo → List OutgoingInfo
  | [] => []
  | it :: rest =>
    if it.state.ext_id = e then it :: matchingItems e rest else matchingItems e rest

/-- Total captured change counter of the uploaded items keyed by `e`. -/
def totalCaptured : List OutgoingInfo → String → Int
  | [], _ => 0
  | it :: rest, e =>
    (if it.state.ext_id = e then it.state.change_counter else 0) + totalCaptured rest e

/-- The table invariant that keys are pairwise distinct (each table's key is
its primary key). -/
def distinctKeys : List (String × A) → Prop
  | [] => True
  | p :: rest => (∀ q ∈ rest, q.1 ≠ p.1) ∧ distinctKeys rest

/-- Every local record's change counter is non-negative. -/
def nonnegAll (locs : List (String × LocalRecord)) : Prop :=
  ∀ p ∈ locs, 0 ≤ p.2.sync_change_counter

/-- alistGet after an alistSet: the set key reads the new value, every other
key is unchanged. -/
theorem alistGet_alistSet (e k : String) (v : A) (l : List (String × A)) :
    alistGet e (alistSet k v l) = if e = k then some v else alistGet e l := by
  induction l with
  | nil =>
    simp only [alistSet, alistGet]
    by_cases h : e = k
    · simp [h]
    · rw [if_neg (fun hh => h hh.symm), if_neg h]
  | cons p rest ih =>
    simp only [alistSet]
    by_cases h1 : p.1 = k
    · simp only [if_pos h1, alistGet]
      by_cases h2 : e = k
      · rw [if_pos h2.symm, if_pos h2]
      · rw [if_neg (fun hh => h2 hh.symm), if_neg h2,
          if_neg (fun hh : p.1 = e => h2 (h1 ▸ hh).symm)]
    · simp only [if_neg h1, alistGet, ih]
      by_cases h2 : p.1 = e
      · rw [if_pos h2, if_neg (fun hh : e = k => h1 (h2.symm ▸ hh)), if_pos h2]
      · rw [if_neg h2, if_neg h2]

/-- alistGet after a deleteKey: the deleted key reads nothing, every other key
is unchanged. -/
theorem alistGet_deleteKey (e k : String) (l : List (String × A)) :
    alistGet e (deleteKey k l) = if e = k then none else alistGet e l := by
  induction l with
  | nil => simp [deleteKey, alistGet]
  | cons p rest ih =>
    simp only [deleteKey]
    by_cases h1 : p.1 = k
    · rw [if_pos h1, ih]
      by_cases h2 : e = k
      · rw [if_pos h2, if_pos h2]
      · rw [if_neg h2, if_neg h2, alistGet,
          if_neg (fun hh : p.1 = e => h2 (hh ▸ h1 : e = k))]
    · rw [if_neg h1]
      simp only [alistGet, ih]
      by_cases h2 : p.1 = e
      · rw [if_pos h2, if_neg (fun hh : e = k => h1 (h2.symm ▸ hh)), if_pos h2]
      · rw [if_neg h2, if_neg h2]

/-- alistGet after an updateWhere: the updated key reads the mapped value,
every other key is unchanged. -/
theorem alistGet_updateWhere (e k : String) (f : A → A) (l : List (String × A)) :
    alistGet e (updateWhere k f l) =
      if e = k then (alistGet e l).map f else alistGet e l := by
  induction l with
  | nil => simp [updateWhere, alistGet]
  | cons p rest ih =>
    simp only [updateWhere]
    by_cases h1 : p.1 = k
    · simp only [if_pos h1, alistGet, ih]
      by_cases h2 : p.1 = e
      · rw [if_pos h2, if_pos ((h2 ▸ h1 : e = k)), if_pos h2]
        simp
      · rw [if_neg h2]
        by_cases h3 : e = k
        · rw [if_pos h3, if_pos h3, if_neg h2]
        · rw [if_neg h3, if_neg h3, if_neg h2]
    · simp only [if_neg h1, alistGet, ih]
      by_cases h2 : p.1 = e
      · rw [if_pos h2, if_neg (fun hh : e = k => h1 (h2.symm ▸ hh)), if_pos h2]
      · rw [if_neg h2, if_neg h2]

/-- Membership in a deleteKey result implies membership in the original. -/
theorem mem_of_mem_deleteKey (k : String) (l : List (String × A)) (q : String × A)
    (h : q ∈ deleteKey k l) : q ∈ l := by
  induction l with
  | nil => simp [deleteKey] at h
  | cons p rest ih =>
    simp only [deleteKey] at h
    by_cases h1 : p.1 = k
    · rw [if_pos h1] at h
      exact List.mem_cons_of_mem p (ih h)
    · rw [if_neg h1] at h
      rcases List.mem_cons.mp h with h2 | h2
      · exact h2 ▸ List.mem_cons_self p rest
      · exact List.mem_cons_of_mem p (ih h2)

/-- Every row of an updateWhere result comes from a row of the original with
the same key, mapped when the key matches. -/
theorem mem_updateWhere (k : String) (f : A → A) (l : List (String × A))
    (q : String × A) (h : q ∈ updateWhere k f l) :
    ∃ p ∈ l, q.1 = p.1 ∧ q.2 = (if p.1 = k then f p.2 else p.2) := by
  induction l with
  | nil => simp [updateWhere] at h
  | cons p rest ih =>
    simp only [updateWhere] at h
    by_cases h1 : p.1 = k
    · rw [if_pos h1] at h
      rcases List.mem_cons.mp h with h2 | h2
      · exact ⟨p, List.mem_cons_self p rest, by rw [h2], by rw [h2]; simp [if_pos h1]⟩
      · obtain ⟨p', hp', h3, h4⟩ := ih h2
        exact ⟨p', List.mem_cons_of_mem p hp', h3, h4⟩
    · rw [if_neg h1] at h
      rcases List.mem_cons.mp h with h2 | h2
      · exact ⟨p, List.mem_cons_self p rest, by rw [h2], by rw [h2, if_neg h1]⟩
      · obtain ⟨p', hp', h3, h4⟩ := ih h2
        exact ⟨p', List.mem_cons_of_mem p hp', h3, h4⟩
/-- The counter after the composite upload update: the live value minus the
total captured counter of the matching items (an unclamped subtraction). -/
theorem itemsFold_counter (items : List OutgoingInfo) (e : String) :
    ∀ r : LocalRecord,
      (itemsFold items e r).sync_change_counter =
        r.sync_change_counter - totalCaptured items e := by
  induction items with
  | nil => intro r; simp [itemsFold, totalCaptured]
  | cons it rest ih =>
    intro r
    simp only [itemsFold, totalCaptured]
    by_cases h : it.state.ext_id = e
    · rw [if_pos h, if_pos h, ih]
      simp only [uploadStep]
      omega
    · rw [if_neg h, if_neg h, ih]
      omega

/-- With no matching item, the composite upload update is the identity. -/
theorem itemsFold_of_no_match (items : List OutgoingInfo) (e : String)
    (h : matchingItems e items = []) : ∀ r : LocalRecord, itemsFold items e r = r := by
  induction items with
  | nil => intro r; rfl
  | cons it rest ih =>
    intro r
    simp only [matchingItems] at h
    simp only [itemsFold]
    by_cases h1 : it.state.ext_id = e
    · rw [if_pos h1] at h; exact absurd h (List.cons_ne_nil _ _)
    · rw [if_neg h1] at h; rw [if_neg h1]; exact ih h r

/-- With exactly one matching item, the composite upload update is that
item's `uploadStep`. -/
theorem itemsFold_of_single_match (items : List OutgoingInfo) (e : String)
    (it : OutgoingInfo) (h : matchingItems e items = [it]) :
    ∀ r : LocalRecord, itemsFold items e r = uploadStep it r := by
  induction items with
  | nil => intro r; simp [matchingItems] at h
  | cons it0 rest ih =>
    intro r
    simp only [matchingItems] at h
    simp only [itemsFold]
    by_cases h1 : it0.state.ext_id = e
    · rw [if_pos h1] at h
      rw [if_pos h1]
      obtain ⟨h2, h3⟩ := List.cons_eq_cons.mp h
      rw [h2, itemsFold_of_no_match rest e h3]
    · rw [if_neg h1] at h; rw [if_neg h1]; exact ih h r

/-- What record_uploaded's first loop reads back per key: the original row,
updated by every matching uploaded item in order. -/
theorem record_uploaded_loop1_alistGet (sig : Signal) (items : List OutgoingInfo) :
    ∀ (locs locs' : List (String × LocalRecord)) (i i' : Nat) (e : String),
      record_uploaded_loop1 sig locs items i = .ok (locs', i') →
      alistGet e locs' = (alistGet e locs).map (itemsFold items e) := by
  induction items with
  | nil =>
    intro locs locs' i i' e h
    simp only [record_uploaded_loop1, Except.ok.injEq, Prod.mk.injEq] at h
    rw [← h.1]
    cases alistGet e locs <;> simp [itemsFold]
  | cons it rest ih =>
    intro locs locs' i i' e h
    simp only [record_uploaded_loop1] at h
    by_cases hs : sig i
    · rw [if_pos hs] at h; exact absurd h (by simp)
    · rw [if_neg hs] at h
      rw [ih _ _ _ _ e h, alistGet_updateWhere]
      by_cases he : e = it.state.ext_id
      · rw [if_pos he, Option.map_map]
        cases alistGet e locs with
        | none => rfl
        | some r =>
          show some (itemsFold rest e (uploadStep it r)) =
            some (itemsFold (it :: rest) e r)
          simp only [itemsFold]
          rw [if_pos he.symm]
      · rw [if_neg he]
        cases alistGet e locs with
        | none => rfl
        | some r =>
          show some (itemsFold rest e r) = some (itemsFold (it :: rest) e r)
          simp only [itemsFold]
          rw [if_neg (fun hh : it.state.ext_id = e => he hh.symm)]

/-- Every row after record_uploaded's first loop comes from an original row
with the same key, updated by its matching items. -/
theorem record_uploaded_loop1_mem (sig : Signal) (items : List OutgoingInfo) :
    ∀ (locs locs' : List (String × LocalRecord)) (i i' : Nat),
      record_uploaded_loop1 sig locs items i = .ok (locs', i') →
      ∀ q ∈ locs', ∃ p ∈ locs, q.1 = p.1 ∧ q.2 = itemsFold items p.1 p.2 := by
  induction items with
  | nil =>
    intro locs locs' i i' h q hq
    simp only [record_uploaded_loop1, Except.ok.injEq, Prod.mk.injEq] at h
    exact ⟨q, h.1 ▸ hq, rfl, rfl⟩
  | cons it rest ih =>
    intro locs locs' i i' h q hq
    simp only [record_uploaded_loop1] at h
    by_cases hs : sig i
    · rw [if_pos hs] at h; exact absurd h (by simp)
    · rw [if_neg hs] at h
      obtain ⟨p', hp', h1, h2⟩ := ih _ _ _ _ h q hq
      obtain ⟨p, hp, h3, h4⟩ := mem_updateWhere _ _ _ _ hp'
      refine ⟨p, hp, h1.trans h3, ?_⟩
      rw [h2, h4, h3]
      simp only [itemsFold]
      by_cases h5 : p.1 = it.state.ext_id
      · rw [if_pos h5, if_pos h5.symm]
      · rw [if_neg h5, if_neg (fun hh => h5 hh.symm)]

/-- record_uploaded's second loop leaves every guid that no uploaded item
carries untouched in the mirror. -/
theorem record_uploaded_loop2_alistGet (sig : Signal) (items : List OutgoingInfo)
    (g : String) (hng : ∀ it ∈ items, it.payload.guid ≠ g) :
    ∀ (m m' : List (String × MirrorRecord)) (i : Nat),
      record_uploaded_loop2 sig m items i = .ok m' →
      alistGet g m' = alistGet g m := by
  induction items with
  | nil =>
    intro m m' i h
    simp only [record_uploaded_loop2, Except.ok.injEq] at h
    rw [h]
  | cons it rest ih =>
    intro m m' i h
    simp only [record_uploaded_loop2] at h
    by_cases hs : sig i
    · rw [if_pos hs] at h; exact absurd h (by simp)
    · rw [if_neg hs] at h
      have h1 := ih (fun x hx => hng x (List.mem_cons_of_mem it hx)) _ _ _ h
      rw [h1, alistGet_alistSet,
        if_neg (fun hh => hng it (List.mem_cons_self it rest) hh.symm)]
/-- Folding staging rows whose guids all differ from `g` into the mirror does
not change what `g` reads. -/
theorem fold_staging_keep (g : String) :
    ∀ (st : List (String × StagingRecord)) (m : List (String × MirrorRecord)),
      (∀ p ∈ st, p.1 ≠ g) →
      alistGet g (fold_staging_into_mirror m st) = alistGet g m := by
  intro st
  induction st with
  | nil => intro m _; rfl
  | cons p rest ih =>
    intro m hng
    simp only [fold_staging_into_mirror]
    rw [ih _ (fun q hq => hng q (List.mem_cons_of_mem p hq)), alistGet_alistSet,
      if_neg (fun hh : g = p.1 => hng p (List.mem_cons_self p rest) hh.symm)]

/-- Folding staging into the mirror makes every staged guid (keys pairwise
distinct) read the staged row's ext_id, data and server_modified. -/
theorem fold_staging_hit (g : String) (row : StagingRecord) :
    ∀ (st : List (String × StagingRecord)) (m : List (String × MirrorRecord)),
      distinctKeys st → alistGet g st = some row →
      alistGet g (fold_staging_into_mirror m st) =
        some ⟨row.ext_id, row.data, row.server_modified⟩ := by
  intro st
  induction st with
  | nil => intro m _ hg; simp [alistGet] at hg
  | cons p rest ih =>
    intro m hd hg
    simp only [distinctKeys] at hd
    simp only [alistGet] at hg
    simp only [fold_staging_into_mirror]
    by_cases h1 : p.1 = g
    · rw [if_pos h1] at hg
      injection hg with hg
      rw [fold_staging_keep g rest _ (fun q hq hh => hd.1 q hq (hh.trans h1.symm)),
        alistGet_alistSet, if_pos h1.symm, hg]
    · rw [if_neg h1] at hg
      exact ih _ hd.2 hg

/-- On success, record_uploaded committed: its first loop's local table, the
staging fold plus the uploaded payloads in the mirror, and an empty staging
table. -/
theorem record_uploaded_ok (s : DbState) (items : List OutgoingInfo) (sig : Signal)
    (hok : (record_uploaded s items sig).2 = none) :
    ∃ locs i m2,
      record_uploaded_loop1 sig s.locals items 0 = .ok (locs, i) ∧
      record_uploaded_loop2 sig (fold_staging_into_mirror s.mirror s.staging) items i =
        .ok m2 ∧
      (record_uploaded s items sig).1 = ⟨locs, m2, []⟩ := by
  cases h1 : record_uploaded_loop1 sig s.locals items 0 with
  | error e => simp [record_uploaded, h1] at hok
  | ok p =>
    obtain ⟨locs, i⟩ := p
    cases h2 : record_uploaded_loop2 sig (fold_staging_into_mirror s.mirror s.staging)
        items i with
    | error e => simp [record_uploaded, h1, h2] at hok
    | ok m2 => exact ⟨locs, i, m2, rfl, h2, by simp [record_uploaded, h1, h2]⟩

/-- Any key readable after one applied action was already readable before. -/
theorem apply_action_isSome (render : JsonValue → String)
    (locs : List (String × LocalRecord)) (k e : String) (a : IncomingAction)
    (h : (alistGet e (apply_action render locs k a)).isSome) :
    (alistGet e locs).isSome := by
  cases a with
  | DeleteLocally =>
    rw [apply_action, alistGet_deleteKey] at h
    by_cases h1 : e = k
    · rw [if_pos h1] at h; simp at h
    · rwa [if_neg h1] at h
  | DeleteRemotely =>
    rw [apply_action, alistGet_updateWhere] at h
    by_cases h1 : e = k
    · rw [if_pos h1] at h; simpa using h
    · rwa [if_neg h1] at h
  | TakeRemote d =>
    rw [apply_action, alistGet_updateWhere] at h
    by_cases h1 : e = k
    · rw [if_pos h1] at h; simpa using h
    · rwa [if_neg h1] at h
  | Merge d =>
    rw [apply_action, alistGet_updateWhere] at h
    by_cases h1 : e = k
    · rw [if_pos h1] at h; simpa using h
    · rwa [if_neg h1] at h
  | Same => exact h

/-- Any key readable after apply_actions' loop was already readable before. -/
theorem apply_actions_loop_isSome (render : JsonValue → String) (sig : Signal)
    (actions : List (IncomingItem × IncomingAction)) :
    ∀ (locs locs' : List (String × LocalRecord)) (i : Nat) (e : String),
      apply_actions_loop render sig locs actions i = .ok locs' →
      (alistGet e locs').isSome → (alistGet e locs).isSome := by
  induction actions with
  | nil =>
    intro locs locs' i e h hs
    simp only [apply_actions_loop, Except.ok.injEq] at h
    rwa [h]
  | cons pa rest ih =>
    intro locs locs' i e h hs
    simp only [apply_actions_loop] at h
    by_cases h1 : sig i
    · rw [if_pos h1] at h; exact absurd h (by simp)
    · rw [if_neg h1] at h
      exact apply_action_isSome render locs pa.1.ext_id e pa.2 (ih _ _ _ e h hs)

/-- One applied action preserves non-negativity of all change counters. -/
theorem apply_action_nonneg (render : JsonValue → String)
    (locs : List (String × LocalRecord)) (k : String) (a : IncomingAction)
    (h : nonnegAll locs) : nonnegAll (apply_action render locs k a) := by
  cases a with
  | DeleteLocally =>
    intro q hq
    exact h q (mem_of_mem_deleteKey k locs q hq)
  | DeleteRemotely =>
    intro q hq
    obtain ⟨p, hp, h1, h2⟩ := mem_updateWhere _ _ _ _ hq
    rw [h2]
    by_cases h3 : p.1 = k
    · rw [if_pos h3]; exact h p hp
    · rw [if_neg h3]; exact h p hp
  | TakeRemote d =>
    intro q hq
    obtain ⟨p, hp, h1, h2⟩ := mem_updateWhere _ _ _ _ hq
    rw [h2]
    by_cases h3 : p.1 = k
    · rw [if_pos h3]
    · rw [if_neg h3]; exact h p hp
  | Merge d =>
    intro q hq
    obtain ⟨p, hp, h1, h2⟩ := mem_updateWhere _ _ _ _ hq
    rw [h2]
    by_cases h3 : p.1 = k
    · rw [if_pos h3]
      have h4 := h p hp
      show 0 ≤ p.2.sync_change_counter + 1
      omega
    · rw [if_neg h3]; exact h p hp
  | Same => exact h

/-- apply_actions' loop preserves non-negativity of all change counters. -/
theorem apply_actions_loop_nonneg (render : JsonValue → String) (sig : Signal)
    (actions : List (IncomingItem × IncomingAction)) :
    ∀ (locs locs' : List (String × LocalRecord)) (i : Nat),
      nonnegAll locs → apply_actions_loop render sig locs actions i = .ok locs' →
      nonnegAll locs' := by
  induction actions with
  | nil =>
    intro locs locs' i hn h
    simp only [apply_actions_loop, Except.ok.injEq] at h
    rwa [← h]
  | cons pa rest ih =>
    intro locs locs' i hn h
    simp only [apply_actions_loop] at h
    by_cases h1 : sig i
    · rw [if_pos h1] at h; exact absurd h (by simp)
    · rw [if_neg h1] at h
      exact ih _ _ _ (apply_action_nonneg render locs pa.1.ext_id pa.2 hn) h
/-- C1: the spec's LocalOnly decision table says (incoming present, local
absent) yields TakeRemote(incoming) and (incoming absent, local present)
yields DeleteLocally; the source's two match arms are swapped: it returns
DeleteLocally for the former and TakeRemote carrying the LOCAL data for the
latter, contradicting the arms' own comments. This theorem evaluates the
transcribed code at those two inputs. -/
theorem plan_incoming_localonly_arms_swapped :
    plan_incoming (fun i _ _ => IncomingAction.Merge i)
        (IncomingState.LocalOnly (some [("foo", JsonValue.str "bar")]) none) =
      IncomingAction.DeleteLocally ∧
    plan_incoming (fun i _ _ => IncomingAction.Merge i)
        (IncomingState.LocalOnly none (some [("foo", JsonValue.str "bar")])) =
      IncomingAction.TakeRemote [("foo", JsonValue.str "bar")] :=
  ⟨rfl, rfl⟩

/-- C2: the claim says TakeRemote stores the JSON text of `data`; the source
binds `serde_json::Value::Object(data).as_str()`, which is None for every
object, so the record's data becomes NULL (status and counter are set as
claimed). This theorem evaluates the transcribed code at a record that
existed with data and a non-zero counter. -/
theorem apply_actions_take_remote_writes_null :
    alistGet "ext"
        (apply_actions (fun _ => "RENDERED")
            ⟨[("ext", ⟨some "old", SyncStatus.New, 3⟩)], [], []⟩
            [(⟨"guid", "ext"⟩, IncomingAction.TakeRemote [("foo", JsonValue.str "bar")])]
            neverSignal).1.locals =
      some ⟨none, SyncStatus.Normal, 0⟩ :=
  rfl

/-- C6: when the signal is already raised at the first poll and the batch is
non-empty, stage_incoming returns the interrupted error with the store (in
particular staging) exactly as it was: the transaction was never committed. -/
theorem stage_incoming_interrupted_rolls_back (s : DbState) (b : ServerPayload)
    (rest : List ServerPayload) (sig : Signal) (hsig : sig 0 = true) :
    stage_incoming s (b :: rest) sig = (s, some Err.interrupted) := by
  simp [stage_incoming, stage_incoming_loop, hsig]

theorem stage_incoming_interrupted_rolls_back_witness :
    stage_incoming ⟨[], [], []⟩ [⟨"guid", "ext", some "d", false, 7⟩] (fun _ => true) =
      (⟨[], [], []⟩, some Err.interrupted) :=
  stage_incoming_interrupted_rolls_back ⟨[], [], []⟩ ⟨"guid", "ext", some "d", false, 7⟩
    [] (fun _ => true) rfl

/-- C10: get_outgoing receives the signal but never polls it: for every store
and every signal (raised or not) it returns Ok of the same row set, never the
interrupted error. -/
theorem get_outgoing_ignores_signal (fresh : Nat → String) (s : DbState)
    (sig sig' : Signal) :
    get_outgoing fresh s sig = Except.ok (get_outgoing_rows fresh s.locals s.mirror 0) ∧
    get_outgoing fresh s sig = get_outgoing fresh s sig' :=
  ⟨rfl, rfl⟩

/-- C3 counterexample: an item collected by get_outgoing with captured counter
1 from a store whose live counter is 1; apply_actions(TakeRemote) then resets
the live counter to 0 before record_uploaded runs. The claim predicts
max(0, 0 - 1) = 0; the code's unclamped subtraction leaves -1. -/
theorem record_uploaded_no_clamp_cex :
    alistGet "ext"
        (record_uploaded
            (apply_actions (fun _ => "RENDERED")
                ⟨[("ext", ⟨some "d", SyncStatus.New, 1⟩)], [("guid", ⟨"ext", some "d", 0⟩)], []⟩
                [(⟨"guid", "ext"⟩, IncomingAction.TakeRemote [("k", JsonValue.str "v")])]
                neverSignal).1
            (get_outgoing_rows (fun _ => "fresh")
              [("ext", ⟨some "d", SyncStatus.New, 1⟩)] [("guid", ⟨"ext", some "d", 0⟩)] 0)
            neverSignal).1.locals =
      some ⟨none, SyncStatus.Normal, -1⟩ ∧
    (-1 : Int) ≠ max 0 (0 - 1) :=
  ⟨rfl, by decide⟩

/-- C3 as amended: after record_uploaded succeeds on a store whose table has
exactly one uploaded item for the record's ext_id, with captured counter k,
the live counter equals live_before - k exactly (unclamped subtraction; no
max(0, ·)), and the status is Normal: an increment made between collection
and recording survives, and a decrement below k goes negative. -/
theorem record_uploaded_subtracts_captured (s : DbState) (items : List OutgoingInfo)
    (sig : Signal) (e : String) (r : LocalRecord) (it : OutgoingInfo)
    (hr : alistGet e s.locals = some r)
    (hone : matchingItems e items = [it])
    (hok : (record_uploaded s items sig).2 = none) :
    alistGet e (record_uploaded s items sig).1.locals =
      some
        { r with
          sync_change_counter := r.sync_change_counter - it.state.change_counter
          sync_status := SyncStatus.Normal } := by
  obtain ⟨locs, i, m2, h1, h2, h3⟩ := record_uploaded_ok s items sig hok
  rw [h3]
  show alistGet e locs = _
  rw [record_uploaded_loop1_alistGet sig items s.locals locs 0 i e h1, hr]
  show some (itemsFold items e r) = _
  rw [itemsFold_of_single_match items e it hone r]
  rfl

theorem record_uploaded_subtracts_captured_witness :
    alistGet "ext"
        (record_uploaded ⟨[("ext", ⟨some "d", SyncStatus.New, 5⟩)], [], []⟩
            [⟨⟨"ext", 2⟩, ⟨"guid", "ext", some "d", false, 0⟩⟩] neverSignal).1.locals =
      some ⟨some "d", SyncStatus.Normal, 3⟩ :=
  record_uploaded_subtracts_captured ⟨[("ext", ⟨some "d", SyncStatus.New, 5⟩)], [], []⟩
    [⟨⟨"ext", 2⟩, ⟨"guid", "ext", some "d", false, 0⟩⟩] neverSignal "ext"
    ⟨some "d", SyncStatus.New, 5⟩ ⟨⟨"ext", 2⟩, ⟨"guid", "ext", some "d", false, 0⟩⟩
    rfl rfl rfl

/-- C4: apply_actions never inserts a local row: every ext_id readable from
the local table after a successful apply_actions was readable before; in
particular TakeRemote on an absent record (e.g. one classified IncomingOnly)
leaves no local record behind. -/
theorem apply_actions_never_inserts (render : JsonValue → String) (s : DbState)
    (actions : List (IncomingItem × IncomingAction)) (sig : Signal)
    (hok : (apply_actions render s actions sig).2 = none) (e : String)
    (hafter : (alistGet e (apply_actions render s actions sig).1.locals).isSome) :
    (alistGet e s.locals).isSome := by
  cases h1 : apply_actions_loop render sig s.locals actions 0 with
  | error err => simp [apply_actions, h1] at hok
  | ok locs =>
    have h2 : (apply_actions render s actions sig).1.locals = locs := by
      simp [apply_actions, h1]
    rw [h2] at hafter
    exact apply_actions_loop_isSome render sig actions s.locals locs 0 e h1 hafter

theorem apply_actions_never_inserts_witness :
    (alistGet "kept" [("kept", (⟨some "d", SyncStatus.New, 0⟩ : LocalRecord))]).isSome :=
  apply_actions_never_inserts (fun _ => "RENDERED")
    ⟨[("kept", ⟨some "d", SyncStatus.New, 0⟩)], [], []⟩
    [(⟨"guid", "absent"⟩, IncomingAction.TakeRemote [("k", JsonValue.str "v")])]
    neverSignal rfl "kept" (by rfl)
/-- C5 counterexample: a staged row (guid "guid", data "A", server_modified 5)
and an uploaded item whose payload shares that guid with data "B". The call
succeeds and empties staging, but the mirror row keyed by the staged guid
carries the uploaded payload's data and timestamp, not the staged ones, so
the claim's unconditional "carrying the staged ext_id, data and
server_modified" is false. -/
theorem record_uploaded_staging_overwritten_cex :
    (record_uploaded ⟨[], [], [("guid", ⟨"ext", some "A", 5⟩)]⟩
        [⟨⟨"ext", 1⟩, ⟨"guid", "ext", some "B", false, 0⟩⟩] neverSignal).2 = none ∧
    (record_uploaded ⟨[], [], [("guid", ⟨"ext", some "A", 5⟩)]⟩
        [⟨⟨"ext", 1⟩, ⟨"guid", "ext", some "B", false, 0⟩⟩] neverSignal).1.staging = [] ∧
    alistGet "guid"
        (record_uploaded ⟨[], [], [("guid", ⟨"ext", some "A", 5⟩)]⟩
            [⟨⟨"ext", 1⟩, ⟨"guid", "ext", some "B", false, 0⟩⟩] neverSignal).1.mirror =
      some ⟨"ext", some "B", 0⟩ ∧
    (some "B" : Option String) ≠ some "A" :=
  ⟨rfl, rfl, rfl, by decide⟩

/-- C5 as amended: if record_uploaded succeeds then staging is empty
afterwards and, for every row staged at the start (staging keys pairwise
distinct, its primary key), a mirror row keyed by that row's guid exists; it
carries the staged ext_id, data and server_modified provided no uploaded
item's payload has that guid — the uploaded payloads are folded into the
mirror after staging and win on a shared guid. -/
theorem record_uploaded_folds_staging (s : DbState) (items : List OutgoingInfo)
    (sig : Signal) (hd : distinctKeys s.staging)
    (hok : (record_uploaded s items sig).2 = none) :
    (record_uploaded s items sig).1.staging = [] ∧
    ∀ g row, alistGet g s.staging = some row →
      (∀ it ∈ items, it.payload.guid ≠ g) →
      alistGet g (record_uploaded s items sig).1.mirror =
        some ⟨row.ext_id, row.data, row.server_modified⟩ := by
  obtain ⟨locs, i, m2, h1, h2, h3⟩ := record_uploaded_ok s items sig hok
  rw [h3]
  refine ⟨rfl, fun g row hg hng => ?_⟩
  show alistGet g m2 = _
  rw [record_uploaded_loop2_alistGet sig items g hng _ _ _ h2]
  exact fold_staging_hit g row s.staging s.mirror hd hg

theorem record_uploaded_folds_staging_witness :
    (record_uploaded ⟨[], [], [("sguid", ⟨"ext2", some "A", 5⟩)]⟩
        [⟨⟨"ext", 1⟩, ⟨"guid", "ext", some "B", false, 0⟩⟩] neverSignal).1.staging = [] ∧
    alistGet "sguid"
        (record_uploaded ⟨[], [], [("sguid", ⟨"ext2", some "A", 5⟩)]⟩
            [⟨⟨"ext", 1⟩, ⟨"guid", "ext", some "B", false, 0⟩⟩] neverSignal).1.mirror =
      some ⟨"ext2", some "A", 5⟩ := by
  have h := record_uploaded_folds_staging ⟨[], [], [("sguid", ⟨"ext2", some "A", 5⟩)]⟩
    [⟨⟨"ext", 1⟩, ⟨"guid", "ext", some "B", false, 0⟩⟩] neverSignal
    (by simp [distinctKeys]) rfl
  exact ⟨h.1, h.2 "sguid" ⟨"ext2", some "A", 5⟩ rfl
    (by intro it hit; simp only [List.mem_singleton] at hit; subst hit; decide)⟩

/-- C7 counterexample: a store whose only record has change_counter 0 (so the
invariant holds), given to record_uploaded with an item whose captured
counter is 2: the unclamped subtraction leaves -2, violating
change_counter ≥ 0. -/
theorem change_counter_goes_negative_cex :
    nonnegAll [("ext", ⟨some "d", SyncStatus.Normal, 0⟩)] ∧
    alistGet "ext"
        (record_uploaded ⟨[("ext", ⟨some "d", SyncStatus.Normal, 0⟩)], [], []⟩
            [⟨⟨"ext", 2⟩, ⟨"guid", "ext", some "d", false, 0⟩⟩] neverSignal).1.locals =
      some ⟨some "d", SyncStatus.Normal, -2⟩ ∧
    ¬ (0 : Int) ≤ -2 :=
  ⟨by intro p hp; simp only [List.mem_singleton] at hp; subst hp; decide, rfl, by decide⟩

/-- C7 as amended: starting from a store in which every change counter is
non-negative, stage_incoming and apply_actions keep every counter
non-negative (get_incoming and get_outgoing are read-only queries and return
no modified store), and record_uploaded does too provided, for each local
record, the total captured counter of the uploaded items for its ext_id does
not exceed its live counter — as when the items were just collected by
get_outgoing; the code's unclamped subtraction can otherwise drive a counter
negative. -/
theorem change_counter_nonneg_preserved (s : DbState) (render : JsonValue → String)
    (hnn : nonnegAll s.locals) :
    (∀ bsos sig, nonnegAll ((stage_incoming s bsos sig).1.locals)) ∧
    (∀ actions sig, nonnegAll ((apply_actions render s actions sig).1.locals)) ∧
    (∀ items sig,
      (∀ p ∈ s.locals, totalCaptured items p.1 ≤ p.2.sync_change_counter) →
      nonnegAll ((record_uploaded s items sig).1.locals)) := by
  refine ⟨fun bsos sig => ?_, fun actions sig => ?_, fun items sig hcap => ?_⟩
  · cases h1 : stage_incoming_loop sig s.staging bsos 0 with
    | ok st => simpa [stage_incoming, h1] using hnn
    | error e => simpa [stage_incoming, h1] using hnn
  · cases h1 : apply_actions_loop render sig s.locals actions 0 with
    | ok locs =>
      have h2 : (apply_actions render s actions sig).1.locals = locs := by
        simp [apply_actions, h1]
      rw [h2]
      exact apply_actions_loop_nonneg render sig actions s.locals locs 0 hnn h1
    | error e => simpa [apply_actions, h1] using hnn
  · cases h1 : record_uploaded_loop1 sig s.locals items 0 with
    | error e =>
      have h2 : record_uploaded s items sig = (s, some e) := by
        simp [record_uploaded, h1]
      simpa [h2] using hnn
    | ok p =>
      obtain ⟨locs, i⟩ := p
      cases h2 : record_uploaded_loop2 sig (fold_staging_into_mirror s.mirror s.staging)
          items i with
      | error e =>
        have h3 : record_uploaded s items sig = (s, some e) := by
          simp [record_uploaded, h1, h2]
        simpa [h3] using hnn
      | ok m2 =>
        have h3 : (record_uploaded s items sig).1.locals = locs := by
          simp [record_uploaded, h1, h2]
        rw [h3]
        intro q hq
        obtain ⟨p, hp, h4, h5⟩ := record_uploaded_loop1_mem sig items s.locals locs 0 i h1 q hq
        rw [h5, itemsFold_counter]
        have h6 := hnn p hp
        have h7 := hcap p hp
        omega

theorem change_counter_nonneg_preserved_witness :
    nonnegAll ((record_uploaded ⟨[("ext", ⟨some "d", SyncStatus.New, 2⟩)], [], []⟩
        [⟨⟨"ext", 1⟩, ⟨"guid", "ext", some "d", false, 0⟩⟩] neverSignal).1.locals) :=
  (change_counter_nonneg_preserved ⟨[("ext", ⟨some "d", SyncStatus.New, 2⟩)], [], []⟩
      (fun _ => "RENDERED")
      (by intro p hp; simp only [List.mem_singleton] at hp; subst hp; decide)).2.2
    [⟨⟨"ext", 1⟩, ⟨"guid", "ext", some "d", false, 0⟩⟩] neverSignal
    (by intro p hp; simp only [List.mem_singleton] at hp; subst hp; decide)

/-- C8: a staging row whose data is text that does not parse to a JSON object
(not valid JSON, or a non-object value) is classified by get_incoming exactly
as if its data were absent; get_incoming is total in the embedding, as in the
source, where json_map_from_row logs and returns Ok(None) for such data. -/
theorem get_incoming_malformed_json_as_absent (parse : String → Option JsonValue)
    (s : DbState) (l1 l2 : List (String × StagingRecord)) (g : String)
    (row : StagingRecord) (str : String)
    (hbad : ∀ m : JsonMap, parse str ≠ some (JsonValue.obj m))
    (hrow : row.data = some str)
    (hstag : s.staging = l1 ++ (g, row) :: l2) :
    get_incoming parse s =
      get_incoming parse { s with staging := l1 ++ (g, { row with data := none }) :: l2 } := by
  have hjs : json_map_from_row parse row.data = none := by
    rw [hrow]
    cases hp : parse str with
    | none => simp [json_map_from_row, hp]
    | some v =>
      cases v with
      | obj fields => exact absurd hp (hbad fields)
      | null => simp [json_map_from_row, hp]
      | bool b => simp [json_map_from_row, hp]
      | num n => simp [json_map_from_row, hp]
      | str s2 => simp [json_map_from_row, hp]
      | arr elems => simp [json_map_from_row, hp]
  have hn : json_map_from_row parse (none : Option String) = none := rfl
  have hhead :
      incoming_from_row parse g row.ext_id row.data (alistGet g s.mirror)
          (alistGet row.ext_id s.locals) =
        incoming_from_row parse g row.ext_id none (alistGet g s.mirror)
          (alistGet row.ext_id s.locals) := by
    simp only [incoming_from_row, hjs, hn]
  show List.map
      (fun p => incoming_from_row parse p.1 p.2.ext_id p.2.data
        (alistGet p.1 s.mirror) (alistGet p.2.ext_id s.locals)) s.staging =
    List.map
      (fun p => incoming_from_row parse p.1 p.2.ext_id p.2.data
        (alistGet p.1 s.mirror) (alistGet p.2.ext_id s.locals))
      (l1 ++ (g, { row with data := none }) :: l2)
  rw [hstag]
  simp only [List.map_append, List.map_cons]
  rw [hhead]

theorem get_incoming_malformed_json_as_absent_witness :
    get_incoming (fun _ => some (JsonValue.str "x"))
        ⟨[], [], [("guid", ⟨"ext", some "notjson", 1⟩)]⟩ =
      get_incoming (fun _ => some (JsonValue.str "x"))
        ⟨[], [], [("guid", ⟨"ext", none, 1⟩)]⟩ :=
  get_incoming_malformed_json_as_absent (fun _ => some (JsonValue.str "x"))
    ⟨[], [], [("guid", ⟨"ext", some "notjson", 1⟩)]⟩ [] [] "guid"
    ⟨"ext", some "notjson", 1⟩ "notjson"
    (fun _ h => JsonValue.noConfusion (Option.some.inj h)) rfl rfl

end WebextStorage
